import Mathlib

/-!
Formal model of the FED repository's GDP data pipeline (`src/fed/data.py`):
the loader `load_gdp_data` and the cleaner `clean_gdp_data`.

Tables are modelled as lists of rows, numeric cells as rational numbers
(`Option ℚ`, `none` standing for a missing value / NaN), and the pandas
operations (row filter, melt, stable sort_values, per-country groupby
fill, column assignment by index alignment) as explicit list functions.
-/

/-- A data cell of the raw World Bank CSV: a numeric value, a non-numeric
placeholder string, or an empty cell.  `pd.to_numeric(errors="coerce")`
maps the latter two to missing. -/
inductive Cell where
  | num (q : ℚ)
  | text (s : String)
  | empty
deriving DecidableEq

/-- Numeric coercion of a cell, as done by `pd.to_numeric(errors="coerce")`:
non-numeric cells become missing rather than raising. -/
def Cell.toNumeric : Cell → Option ℚ
  | .num q => some q
  | _ => none

/-- One row of the raw wide CSV: the "Country Name" cell and the data
cells, addressed by column name. -/
structure RawRow where
  countryName : String
  cell : String → Cell

/-- The raw wide CSV as read by `pd.read_csv(path, skiprows=4)`: its
data-column names and its rows. -/
structure RawTable where
  columns : List String
  rows : List RawRow

/-- A row of the long table returned by `load_gdp_data`. -/
structure LongRow where
  country : String
  year : Int
  gdp_usd : Option ℚ
deriving DecidableEq

/-- Errors `load_gdp_data` can raise: `FileNotFoundError` for a missing
path, and the column-not-found error raised by `df.melt` when a requested
year column is absent from the source (the spec's `SchemaError`). -/
inductive LoadError where
  | fileNotFound
  | schemaError
deriving DecidableEq

/-- Default country allow-list of `load_gdp_data`. -/
def defaultCountries : List String :=
  ["United States", "United Kingdom", "Brazil", "Japan", "China", "Germany",
   "Switzerland"]

/-- Years `start_year, ..., end_year` inclusive (empty when
`end_year < start_year`), as produced by `range(start_year, end_year + 1)`. -/
def yearRange (start_year end_year : Int) : List Int :=
  (List.range (end_year - start_year + 1).toNat).map
    (fun (i : Nat) => start_year + (i : Int))

/-- Shallow embedding of `load_gdp_data` (src/fed/data.py).  The `file`
argument is `none` when the path does not resolve to an existing file
(`FileNotFoundError`); `countries = none` models the Python default and
selects `defaultCountries`; rows whose entity is outside the allow-list
are filtered out; `melt` stacks, for each requested year column in
range order, one row per retained source row, and raises a
column-not-found error when a requested year column is absent from the
source; year labels are converted back to integers and values are
numerically coerced with non-numeric cells becoming missing. -/
def load_gdp_data (file : Option RawTable) (countries : Option (List String))
    (start_year : Int) (end_year : Int) : Except LoadError (List LongRow) :=
  match file with
  | none => Except.error LoadError.fileNotFound
  | some raw =>
      let cs := countries.getD defaultCountries
      let dfRows := raw.rows.filter (fun r => cs.contains r.countryName)
      let years := yearRange start_year end_year
      if (years.map (fun y => toString y)).all (fun c => raw.columns.contains c) then
        Except.ok (years.flatMap (fun y =>
          dfRows.map (fun r => ⟨r.countryName, y, (r.cell (toString y)).toNumeric⟩)))
      else Except.error LoadError.schemaError

lemma yearRange_length (s e : Int) : (yearRange s e).length = (e - s + 1).toNat := by
  rw [yearRange, List.length_map, List.length_range]

lemma mem_yearRange {s e y : Int} (h1 : s ≤ y) (h2 : y ≤ e) : y ∈ yearRange s e := by
  have hy : y = s + (((y - s).toNat : Nat) : Int) := by omega
  rw [hy, yearRange]
  refine List.mem_map_of_mem _ ?_
  rw [List.mem_range]
  omega

lemma yearRange_bounds {s e y : Int} (h : y ∈ yearRange s e) : s ≤ y ∧ y ≤ e := by
  rw [yearRange, List.mem_map] at h
  obtain ⟨i, hi, rfl⟩ := h
  rw [List.mem_range] at hi
  omega

lemma contains_iff_mem_str {l : List String} {a : String} : l.contains a = true ↔ a ∈ l := by
  rw [List.contains, List.elem_iff]

lemma flatMap_map_length {α β γ : Type} (ys : List α) (rs : List β) (g : α → β → γ) :
    (ys.flatMap (fun y => rs.map (g y))).length = ys.length * rs.length := by
  induction ys with
  | nil => simp
  | cons y t ih => simp [ih, Nat.succ_mul, Nat.add_comm]

/-- Concrete raw table used as a counterexample: one source row (China),
year column 2000 present. -/
def cexRaw : RawTable :=
  ⟨["Country Name", "2000"],
   [⟨"China", fun c => if c = "2000" then Cell.num 1 else Cell.empty⟩]⟩

/-- C1, counterexample: with the source containing a row only for China
and the allow-list `["China", "Atlantis"]` over the single year 2000,
`load_gdp_data` succeeds with 1 row, not `len(entities) * 1 = 2`: an
allow-listed entity absent from the source contributes no rows, so the
claimed row-count formula fails. -/
theorem C1_row_count_counterexample :
    load_gdp_data (some cexRaw) (some ["China", "Atlantis"]) 2000 2000
        = Except.ok [⟨"China", 2000, some 1⟩]
      ∧ ([(⟨"China", 2000, some 1⟩ : LongRow)].length
          ≠ ["China", "Atlantis"].length * ((2000 : Int) - 2000 + 1).toNat) := by
  exact ⟨rfl, by decide⟩

/-- C1, amended: for every input file, allow-list and year range, the
long table returned by `load_gdp_data` has one row per (retained source
row, year in range): its row count equals the number of source rows
whose entity is in the allow-list times `end_year - start_year + 1`. -/
theorem C1_row_count (raw : RawTable) (countries : List String)
    (s e : Int) (t : List LongRow)
    (h : load_gdp_data (some raw) (some countries) s e = Except.ok t) :
    t.length
      = (raw.rows.filter (fun r => countries.contains r.countryName)).length
          * (e - s + 1).toNat := by
  unfold load_gdp_data at h
  simp only [Option.getD_some] at h
  split at h
  · rw [Except.ok.injEq] at h
    subst h
    rw [flatMap_map_length, yearRange_length, Nat.mul_comm]
  · exact absurd h (by simp)

/-- C1, witness for the amended theorem at a concrete input. -/
theorem C1_row_count_witness :
    ([(⟨"China", 2000, some 1⟩ : LongRow)] : List LongRow).length
      = (cexRaw.rows.filter
          (fun r => (["China", "Atlantis"] : List String).contains r.countryName)).length
          * ((2000 : Int) - 2000 + 1).toNat := by
  exact C1_row_count cexRaw ["China", "Atlantis"] 2000 2000 _ rfl

/-- C2: if some year inside the requested range is absent from the
source's columns, `load_gdp_data` fails with the column-not-found
`SchemaError` rather than producing missing data for that year. -/
theorem C2_missing_year_column_errors (raw : RawTable)
    (countries : Option (List String)) (s e y : Int)
    (h1 : s ≤ y) (h2 : y ≤ e) (habs : toString y ∉ raw.columns) :
    load_gdp_data (some raw) countries s e = Except.error LoadError.schemaError := by
  simp only [load_gdp_data]
  split
  · next hall =>
      exfalso
      rw [List.all_eq_true] at hall
      have hm := hall (toString y) (List.mem_map_of_mem _ (mem_yearRange h1 h2))
      rw [contains_iff_mem_str] at hm
      exact habs hm
  · rfl

/-- C2, witness: a source lacking the "2001" column over range 2000–2001
fails with a schema error. -/
theorem C2_missing_year_column_errors_witness :
    load_gdp_data (some cexRaw) (some ["China"]) 2000 2001
      = Except.error LoadError.schemaError := by
  refine C2_missing_year_column_errors cexRaw (some ["China"]) 2000 2001 2001
    (by norm_num) (by norm_num) (by decide)

/-- C5: an allow-listed entity with no row in the source file does not
make `load_gdp_data` raise; as long as the requested year columns are
present the loader succeeds and the result contains no row for that
entity. -/
theorem C5_absent_entity_dropped (raw : RawTable) (countries : List String)
    (s e : Int) (c : String) (_hmem : c ∈ countries)
    (habs : ∀ r ∈ raw.rows, r.countryName ≠ c)
    (hcols : ∀ y : Int, s ≤ y → y ≤ e → toString y ∈ raw.columns) :
    ∃ t, load_gdp_data (some raw) (some countries) s e = Except.ok t
      ∧ ∀ row ∈ t, row.country ≠ c := by
  simp only [load_gdp_data, Option.getD_some]
  split
  · refine ⟨_, rfl, ?_⟩
    intro row hrow
    simp only [List.mem_flatMap, List.mem_map] at hrow
    obtain ⟨y, _, r, hr, rfl⟩ := hrow
    exact habs r (List.mem_of_mem_filter hr)
  · next hall =>
      exfalso
      apply hall
      rw [List.all_eq_true]
      intro col hcol
      rw [List.mem_map] at hcol
      obtain ⟨y, hy, rfl⟩ := hcol
      obtain ⟨hy1, hy2⟩ := yearRange_bounds hy
      rw [contains_iff_mem_str]
      exact hcols y hy1 hy2

/-- C5, witness: loading `cexRaw` with allow-list containing the absent
entity "Atlantis" succeeds and yields no row for it. -/
theorem C5_absent_entity_dropped_witness :
    ∃ t, load_gdp_data (some cexRaw) (some ["China", "Atlantis"]) 2000 2000
        = Except.ok t
      ∧ ∀ row ∈ t, row.country ≠ "Atlantis" := by
  refine C5_absent_entity_dropped cexRaw ["China", "Atlantis"] 2000 2000 "Atlantis"
    (by decide) ?_ ?_
  · intro r hr
    simp only [cexRaw, List.mem_singleton] at hr
    subst hr
    decide
  · intro y hy1 hy2
    have : y = 2000 := le_antisymm hy2 hy1
    subst this
    decide

/-- Kernel-computable lexicographic comparison of character lists by code
point, modelling the string ordering `sort_values` uses on the country
column. -/
def charsLt : List Char → List Char → Bool
  | _, [] => false
  | [], _ :: _ => true
  | a :: as, b :: bs => decide (a < b) || (decide (a = b) && charsLt as bs)

/-- Strict lexicographic order on strings. -/
def strLt (a b : String) : Bool := charsLt a.data b.data

/-- Sort key of a long/cleaned row: (country, year). -/
abbrev RowKey := String × Int

/-- Strict lexicographic order on (country, year) sort keys. -/
def keyLt (x y : RowKey) : Bool :=
  strLt x.1 y.1 || (decide (x.1 = y.1) && decide (x.2 < y.2))

/-- Reflexive lexicographic order on (country, year) sort keys. -/
def keyLe (x y : RowKey) : Bool :=
  strLt x.1 y.1 || (decide (x.1 = y.1) && decide (x.2 ≤ y.2))

lemma charsLt_trans : ∀ (a b c : List Char),
    charsLt a b = true → charsLt b c = true → charsLt a c = true
  | _, [], [] => by intro _ h2; simp [charsLt] at h2
  | _, _ :: _, [] => by intro _ h2; simp [charsLt] at h2
  | [], [], _ :: _ => by intro h1 _; simp [charsLt] at h1
  | [], _ :: _, _ :: _ => by intro _ _; simp [charsLt]
  | _ :: _, [], _ :: _ => by intro h1 _; simp [charsLt] at h1
  | a0 :: as, b0 :: bs, c0 :: cs => by
      intro h1 h2
      simp only [charsLt, Bool.or_eq_true, Bool.and_eq_true, decide_eq_true_eq] at h1 h2 ⊢
      rcases h1 with h1 | ⟨rfl, h1⟩
      · rcases h2 with h2 | ⟨rfl, h2⟩
        · exact Or.inl (lt_trans h1 h2)
        · exact Or.inl h1
      · rcases h2 with h2 | ⟨rfl, h2⟩
        · exact Or.inl h2
        · exact Or.inr ⟨rfl, charsLt_trans as bs cs h1 h2⟩

lemma charsLt_total : ∀ (a b : List Char),
    ¬ charsLt a b = true → ¬ charsLt b a = true → a = b
  | [], [] => fun _ _ => rfl
  | [], _ :: _ => by intro h1 _; simp [charsLt] at h1
  | _ :: _, [] => by intro _ h2; simp [charsLt] at h2
  | a0 :: as, b0 :: bs => by
      intro h1 h2
      simp only [charsLt, Bool.or_eq_true, Bool.and_eq_true, decide_eq_true_eq, not_or,
        not_and] at h1 h2
      obtain ⟨hlt1, heq1⟩ := h1
      obtain ⟨hlt2, heq2⟩ := h2
      have hab : a0 = b0 := le_antisymm (not_lt.mp hlt2) (not_lt.mp hlt1)
      subst hab
      rw [charsLt_total as bs (heq1 rfl) (heq2 rfl)]

lemma strLt_trans {a b c : String} (h1 : strLt a b = true) (h2 : strLt b c = true) :
    strLt a c = true := charsLt_trans _ _ _ h1 h2

lemma strLt_total {a b : String} (h1 : ¬ strLt a b = true) (h2 : ¬ strLt b a = true) :
    a = b := String.ext (charsLt_total _ _ h1 h2)

lemma keyLt_le {x y : RowKey} (h : keyLt x y = true) : keyLe x y = true := by
  simp only [keyLt, keyLe, Bool.or_eq_true, Bool.and_eq_true, decide_eq_true_eq] at h ⊢
  rcases h with h | ⟨he, h⟩
  · exact Or.inl h
  · exact Or.inr ⟨he, le_of_lt h⟩

lemma keyLt_false_le {x y : RowKey} (h : ¬ keyLt x y = true) : keyLe y x = true := by
  simp only [keyLt, Bool.or_eq_true, Bool.and_eq_true, decide_eq_true_eq, not_or,
    not_and] at h
  obtain ⟨hs, hn⟩ := h
  simp only [keyLe, Bool.or_eq_true, Bool.and_eq_true, decide_eq_true_eq]
  by_cases ht : strLt y.1 x.1 = true
  · exact Or.inl ht
  · have he : x.1 = y.1 := strLt_total hs ht
    exact Or.inr ⟨he.symm, by have := hn he; omega⟩

lemma keyLe_trans {x y z : RowKey} (h1 : keyLe x y = true) (h2 : keyLe y z = true) :
    keyLe x z = true := by
  simp only [keyLe, Bool.or_eq_true, Bool.and_eq_true, decide_eq_true_eq] at h1 h2 ⊢
  rcases h1 with h1 | ⟨he1, h1⟩
  · rcases h2 with h2 | ⟨he2, h2⟩
    · exact Or.inl (strLt_trans h1 h2)
    · exact Or.inl (he2 ▸ h1)
  · rcases h2 with h2 | ⟨he2, h2⟩
    · exact Or.inl (he1 ▸ h2)
    · exact Or.inr ⟨he1.trans he2, le_trans h1 h2⟩

/-- Stable insertion of `a` into a list sorted by `key`: `a` goes before
the first element whose key is not strictly below `a`'s, so elements
with equal keys keep their original relative order (pandas
`sort_values` on several columns uses the stable `np.lexsort`). -/
def insertByKey {α : Type} (key : α → RowKey) (a : α) : List α → List α
  | [] => [a]
  | x :: xs =>
      if keyLt (key x) (key a) = true then x :: insertByKey key a xs else a :: x :: xs

/-- Stable sort by key: the embedding of `sort_values(["country", "year"])`. -/
def sortByKey {α : Type} (key : α → RowKey) : List α → List α
  | [] => []
  | x :: xs => insertByKey key x (sortByKey key xs)

lemma insertByKey_perm {α : Type} (key : α → RowKey) (a : α) (l : List α) :
    (insertByKey key a l).Perm (a :: l) := by
  induction l with
  | nil => exact List.Perm.refl _
  | cons x xs ih =>
      simp only [insertByKey]
      split
      · exact (ih.cons x).trans (List.Perm.swap a x xs)
      · exact List.Perm.refl _

lemma sortByKey_perm {α : Type} (key : α → RowKey) (l : List α) :
    (sortByKey key l).Perm l := by
  induction l with
  | nil => exact List.Perm.refl _
  | cons x xs ih => exact (insertByKey_perm key x _).trans (ih.cons x)

lemma insertByKey_pairwise {α : Type} (key : α → RowKey) (a : α) (l : List α)
    (h : l.Pairwise (fun u v => keyLe (key u) (key v) = true)) :
    (insertByKey key a l).Pairwise (fun u v => keyLe (key u) (key v) = true) := by
  induction l with
  | nil => simp [insertByKey]
  | cons x xs ih =>
      rw [List.pairwise_cons] at h
      obtain ⟨hx, hxs⟩ := h
      simp only [insertByKey]
      split
      · next hlt =>
          rw [List.pairwise_cons]
          refine ⟨?_, ih hxs⟩
          intro u hu
          rcases List.mem_cons.mp ((insertByKey_perm key a xs).mem_iff.mp hu) with rfl | hu2
          · exact keyLt_le hlt
          · exact hx u hu2
      · next hnlt =>
          rw [List.pairwise_cons]
          refine ⟨?_, List.pairwise_cons.mpr ⟨hx, hxs⟩⟩
          intro u hu
          rcases List.mem_cons.mp hu with rfl | hu2
          · exact keyLt_false_le hnlt
          · exact keyLe_trans (keyLt_false_le hnlt) (hx u hu2)

lemma sortByKey_pairwise {α : Type} (key : α → RowKey) (l : List α) :
    (sortByKey key l).Pairwise (fun u v => keyLe (key u) (key v) = true) := by
  induction l with
  | nil => simp [sortByKey]
  | cons x xs ih => exact insertByKey_pairwise key x _ ih

lemma insertByKey_map {α β : Type} (key1 : α → RowKey) (key2 : β → RowKey) (f : α → β)
    (hk : ∀ a, key2 (f a) = key1 a) (a : α) (l : List α) :
    insertByKey key2 (f a) (l.map f) = (insertByKey key1 a l).map f := by
  induction l with
  | nil => rfl
  | cons x xs ih =>
      by_cases hc : keyLt (key1 x) (key1 a) = true
      · simp only [List.map_cons, insertByKey, hk, if_pos hc, ih]
      · simp only [List.map_cons, insertByKey, hk, if_neg hc]

lemma sortByKey_map {α β : Type} (key1 : α → RowKey) (key2 : β → RowKey) (f : α → β)
    (hk : ∀ a, key2 (f a) = key1 a) (l : List α) :
    sortByKey key2 (l.map f) = (sortByKey key1 l).map f := by
  induction l with
  | nil => rfl
  | cons x xs ih =>
      simp only [List.map_cons, sortByKey, ih, insertByKey_map key1 key2 f hk]

/-- Maximal runs of consecutive elements with equal key: on a
country-sorted frame these runs are exactly the `groupby("country")`
groups, in sorted order. -/
def chunkBy {α : Type} (key : α → String) : List α → List (List α)
  | [] => []
  | a :: l =>
      match chunkBy key l with
      | [] => [[a]]
      | [] :: gs => [a] :: gs
      | (b :: g) :: gs =>
          if key a = key b then (a :: b :: g) :: gs else [a] :: (b :: g) :: gs

lemma chunkBy_flatten {α : Type} (key : α → String) (l : List α) :
    (chunkBy key l).flatten = l := by
  induction l with
  | nil => rfl
  | cons a l ih =>
      rcases h : chunkBy key l with _ | ⟨_ | ⟨b, g⟩, gs⟩ <;> rw [h] at ih <;>
        simp only [chunkBy, h]
      · simp only [List.flatten_nil] at ih
        simp [ih.symm]
      · simp only [List.flatten_cons, List.nil_append] at ih
        simp [ih]
      · split <;>
          simp only [List.flatten_cons, List.cons_append, List.singleton_append,
            List.nil_append] at ih ⊢ <;>
          simp [ih]

lemma chunkBy_map {α β : Type} (key1 : α → String) (key2 : β → String) (f : α → β)
    (hk : ∀ a, key2 (f a) = key1 a) (l : List α) :
    chunkBy key2 (l.map f) = (chunkBy key1 l).map (List.map f) := by
  induction l with
  | nil => rfl
  | cons a l ih =>
      simp only [List.map_cons, chunkBy, ih]
      rcases h : chunkBy key1 l with _ | ⟨_ | ⟨b, g⟩, gs⟩
      · simp
      · simp
      · simp only [List.map_cons, hk]
        split <;> simp

/-- Forward fill (`Series.ffill`): each missing value becomes the
nearest prior known value; `last` carries the most recent known value. -/
def ffillGo (last : Option ℚ) : List (Option ℚ) → List (Option ℚ)
  | [] => []
  | none :: t => last :: ffillGo last t
  | some v :: t => some v :: ffillGo (some v) t

/-- Forward fill of one series (`Series.ffill`). -/
def ffillS (l : List (Option ℚ)) : List (Option ℚ) := ffillGo none l

/-- Backward fill of one series (`Series.bfill`): forward fill on the
reversed series. -/
def bfillS (l : List (Option ℚ)) : List (Option ℚ) := (ffillS l.reverse).reverse

/-- Distance to the next known value of the series, with that value. -/
def nextKnown : List (Option ℚ) → Option (Nat × ℚ)
  | [] => none
  | some v :: _ => some (0, v)
  | none :: t => (nextKnown t).map (fun p => (p.1 + 1, p.2))

/-- Value a missing cell receives under linear interpolation with
clamping at both ends: `prev` is the (already filled) value of the
preceding cell, `t` the rest of the series.  On the line from `prev` to
the next known value `b` at distance `d + 2`, the current cell gets
`prev + (b - prev) / (d + 2)`; with a known value on one side only the
cell is clamped to it, and with none on either side it stays missing. -/
def interpCur (prev : Option ℚ) (t : List (Option ℚ)) : Option ℚ :=
  match prev, nextKnown t with
  | some a, some (d, b) => some (a + (b - a) / ((d : ℚ) + 2))
  | some a, none => some a
  | none, some (_, b) => some b
  | none, none => none

/-- Linear interpolation with clamping at both ends, one cell at a time
(`Series.interpolate(limit_direction="both")` with the default "linear"
method, which treats the values as equally spaced): `prev` is the value
of the preceding cell after filling. -/
def interpGo (prev : Option ℚ) : List (Option ℚ) → List (Option ℚ)
  | [] => []
  | some v :: t => some v :: interpGo (some v) t
  | none :: t => interpCur prev t :: interpGo (interpCur prev t) t

/-- Linear interpolation of one series. -/
def interpolateS (l : List (Option ℚ)) : List (Option ℚ) := interpGo none l

lemma ffillGo_length (l : List (Option ℚ)) : ∀ last, (ffillGo last l).length = l.length := by
  induction l with
  | nil => intro last; rfl
  | cons x t ih => intro last; cases x <;> simp [ffillGo, ih]

lemma ffillS_length (l : List (Option ℚ)) : (ffillS l).length = l.length :=
  ffillGo_length l none

lemma bfillS_length (l : List (Option ℚ)) : (bfillS l).length = l.length := by
  simp [bfillS, ffillS_length]

lemma interpGo_length (l : List (Option ℚ)) : ∀ prev, (interpGo prev l).length = l.length := by
  induction l with
  | nil => intro prev; rfl
  | cons x t ih => intro prev; cases x <;> simp [interpGo, ih]

lemma interpolateS_length (l : List (Option ℚ)) : (interpolateS l).length = l.length :=
  interpGo_length l none

/-- The last known value of a series (the nearest prior known value,
seen from just past its end), if any. -/
def lastKnown : List (Option ℚ) → Option ℚ
  | [] => none
  | none :: t => lastKnown t
  | some v :: t => some ((lastKnown t).getD v)

/-- The first known value of a series (the nearest following known
value, seen from just before its start), if any. -/
def firstKnown : List (Option ℚ) → Option ℚ
  | [] => none
  | none :: t => firstKnown t
  | some v :: _ => some v

lemma ffillGo_getElem (l : List (Option ℚ)) :
    ∀ (last : Option ℚ) (i : Nat), i < l.length →
      (ffillGo last l)[i]? = some (lastKnown (last :: l.take (i + 1))) := by
  induction l with
  | nil => intro last i hi; simp at hi
  | cons x t ih =>
      intro last i hi
      cases x with
      | none =>
          cases i with
          | zero => cases last <;> simp [ffillGo, lastKnown]
          | succ j =>
              simp only [ffillGo, List.getElem?_cons_succ]
              rw [ih last j (by simpa using hi)]
              cases last <;> simp [lastKnown, List.take_succ_cons]
      | some v =>
          cases i with
          | zero => cases last <;> simp [ffillGo, lastKnown]
          | succ j =>
              simp only [ffillGo, List.getElem?_cons_succ]
              rw [ih (some v) j (by simpa using hi)]
              cases last <;> simp [lastKnown, List.take_succ_cons]

lemma ffillS_getElem (l : List (Option ℚ)) (i : Nat) (hi : i < l.length) :
    (ffillS l)[i]? = some (lastKnown (l.take (i + 1))) := by
  rw [ffillS, ffillGo_getElem l none i hi]
  rfl

lemma lastKnown_append_none (ys : List (Option ℚ)) :
    lastKnown (ys ++ [none]) = lastKnown ys := by
  induction ys with
  | nil => rfl
  | cons x t ih => cases x <;> simp [lastKnown, ih]

lemma lastKnown_append_some (ys : List (Option ℚ)) (v : ℚ) :
    lastKnown (ys ++ [some v]) = some v := by
  induction ys with
  | nil => rfl
  | cons x t ih => cases x <;> simp [lastKnown, ih]

lemma lastKnown_reverse (l : List (Option ℚ)) :
    lastKnown l.reverse = firstKnown l := by
  induction l with
  | nil => rfl
  | cons x t ih =>
      cases x with
      | none => simp [List.reverse_cons, lastKnown_append_none, firstKnown, ih]
      | some v => simp [List.reverse_cons, lastKnown_append_some, firstKnown]

lemma reverse_take_reverse (l : List (Option ℚ)) (i : Nat) (hi : i < l.length) :
    l.reverse.take (l.length - i) = (l.drop i).reverse := by
  rw [List.take_reverse]
  have harith : l.length - (l.length - i) = i := by omega
  rw [harith]

lemma bfillS_getElem (l : List (Option ℚ)) (i : Nat) (hi : i < l.length) :
    (bfillS l)[i]? = some (firstKnown (l.drop i)) := by
  rw [bfillS]
  rw [List.getElem?_reverse (by rw [ffillS_length, List.length_reverse]; exact hi)]
  rw [ffillS_length, List.length_reverse]
  have hlen : l.length - 1 - i < l.reverse.length := by
    rw [List.length_reverse]; omega
  rw [ffillS_getElem _ _ hlen]
  have harith : l.length - 1 - i + 1 = l.length - i := by omega
  rw [harith, reverse_take_reverse l i hi, lastKnown_reverse]

lemma nextKnown_replicate_append (k : Nat) (b : ℚ) (t : List (Option ℚ)) :
    nextKnown (List.replicate k none ++ some b :: t) = some (k, b) := by
  induction k with
  | zero => rfl
  | succ j ih => simp [List.replicate_succ, nextKnown, ih]

lemma nextKnown_replicate (k : Nat) :
    nextKnown (List.replicate k (none : Option ℚ)) = none := by
  induction k with
  | zero => rfl
  | succ j ih => simp [List.replicate_succ, nextKnown, ih]

lemma nextKnown_isSome (t : List (Option ℚ)) (hx : ∃ x ∈ t, x ≠ none) :
    (nextKnown t).isSome = true := by
  induction t with
  | nil => simp at hx
  | cons x t ih =>
      cases x with
      | some v => simp [nextKnown]
      | none =>
          obtain ⟨y, hy, hne⟩ := hx
          rcases List.mem_cons.mp hy with rfl | hy2
          · exact absurd rfl hne
          · have ht := ih ⟨y, hy2, hne⟩
            rcases Option.isSome_iff_exists.mp ht with ⟨p, hp⟩
            simp [nextKnown, hp]

lemma interpCur_some_gap (a b : ℚ) (k : Nat) (t : List (Option ℚ)) :
    interpCur (some a) (List.replicate k none ++ some b :: t)
      = some (a + (b - a) / ((k : ℚ) + 2)) := by
  simp [interpCur, nextKnown_replicate_append]

lemma interpCur_none_gap (b : ℚ) (k : Nat) (t : List (Option ℚ)) :
    interpCur none (List.replicate k none ++ some b :: t) = some b := by
  simp [interpCur, nextKnown_replicate_append]

lemma interpGo_gap (k : Nat) : ∀ (a b : ℚ) (t : List (Option ℚ)) (p : Nat), p < k →
    (interpGo (some a) (List.replicate k none ++ some b :: t))[p]?
      = some (some (a + (b - a) * ((p : ℚ) + 1) / ((k : ℚ) + 1))) := by
  induction k with
  | zero => intro a b t p hp; omega
  | succ j ih =>
      intro a b t p hp
      rw [List.replicate_succ, List.cons_append]
      simp only [interpGo, interpCur_some_gap]
      cases p with
      | zero =>
          rw [List.getElem?_cons_zero, Option.some.injEq, Option.some.injEq]
          push_cast
          ring
      | succ q =>
          rw [List.getElem?_cons_succ, ih (a + (b - a) / ((j : ℚ) + 2)) b t q (by omega),
            Option.some.injEq, Option.some.injEq]
          have hj1 : ((j : ℚ) + 1) ≠ 0 := by positivity
          have hj2 : ((j : ℚ) + 2) ≠ 0 := by positivity
          push_cast
          field_simp
          ring

lemma interpGo_lead (k : Nat) : ∀ (b : ℚ) (t : List (Option ℚ)) (p : Nat), p < k →
    (interpGo none (List.replicate k none ++ some b :: t))[p]? = some (some b) := by
  induction k with
  | zero => intro b t p hp; omega
  | succ j ih =>
      intro b t p hp
      rw [List.replicate_succ, List.cons_append]
      simp only [interpGo, interpCur_none_gap]
      cases p with
      | zero => rw [List.getElem?_cons_zero]
      | succ q =>
          rw [List.getElem?_cons_succ, interpGo_gap j b b t q (by omega)]
          simp

lemma interpCur_some_none (a : ℚ) (k : Nat) :
    interpCur (some a) (List.replicate k (none : Option ℚ)) = some a := by
  simp [interpCur, nextKnown_replicate]

lemma interpGo_trailing (k : Nat) : ∀ (a : ℚ),
    interpGo (some a) (List.replicate k (none : Option ℚ))
      = List.replicate k (some a) := by
  induction k with
  | zero => intro a; rfl
  | succ j ih =>
      intro a
      simp only [List.replicate_succ, interpGo, interpCur_some_none, ih]

lemma interpGo_drop (u : List (Option ℚ)) : ∀ (prev : Option ℚ) (a : ℚ)
    (r : List (Option ℚ)),
    (interpGo prev (u ++ some a :: r)).drop (u.length + 1) = interpGo (some a) r := by
  induction u with
  | nil =>
      intro prev a r
      simp [interpGo]
  | cons x u ih =>
      intro prev a r
      cases x with
      | some v =>
          simp only [List.cons_append, interpGo, List.length_cons]
          rw [List.drop_succ_cons]
          exact ih (some v) a r
      | none =>
          simp only [List.cons_append, interpGo, List.length_cons]
          rw [List.drop_succ_cons]
          exact ih _ a r

lemma interpCur_ne_none_of_prev (a : ℚ) (t : List (Option ℚ)) :
    interpCur (some a) t ≠ none := by
  rcases h : nextKnown t with _ | ⟨d, b⟩ <;> simp [interpCur, h]

lemma interpCur_ne_none_of_next (prev : Option ℚ) (t : List (Option ℚ))
    (h : ∃ x ∈ t, x ≠ none) : interpCur prev t ≠ none := by
  rcases Option.isSome_iff_exists.mp (nextKnown_isSome t h) with ⟨⟨d, b⟩, hp⟩
  cases prev <;> simp [interpCur, hp]

lemma interpGo_ne_none (l : List (Option ℚ)) : ∀ (prev : Option ℚ),
    (prev ≠ none ∨ ∃ x ∈ l, x ≠ none) → ∀ y ∈ interpGo prev l, y ≠ none := by
  induction l with
  | nil => intro prev _ y hy; simp [interpGo] at hy
  | cons x t ih =>
      intro prev hprev y hy
      cases x with
      | some v =>
          simp only [interpGo] at hy
          rcases List.mem_cons.mp hy with rfl | hy2
          · simp
          · exact ih (some v) (Or.inl (by simp)) y hy2
      | none =>
          simp only [interpGo] at hy
          have hcur : interpCur prev t ≠ none := by
            rcases prev with _ | a
            · rcases hprev with hp | ⟨z, hz, hzn⟩
              · exact absurd rfl hp
              · rcases List.mem_cons.mp hz with rfl | hz2
                · exact absurd rfl hzn
                · exact interpCur_ne_none_of_next none t ⟨z, hz2, hzn⟩
            · exact interpCur_ne_none_of_prev a t
          rcases List.mem_cons.mp hy with rfl | hy2
          · exact hcur
          · exact ih (interpCur prev t) (Or.inl hcur) y hy2

lemma interpGo_getElem_some (l : List (Option ℚ)) : ∀ (prev : Option ℚ) (i : Nat) (v : ℚ),
    l[i]? = some (some v) → (interpGo prev l)[i]? = some (some v) := by
  induction l with
  | nil => intro prev i v h; simp at h
  | cons x t ih =>
      intro prev i v h
      cases i with
      | zero =>
          rw [List.getElem?_cons_zero, Option.some.injEq] at h
          subst h
          simp [interpGo]
      | succ j =>
          rw [List.getElem?_cons_succ] at h
          cases x with
          | some w =>
              simp only [interpGo]
              rw [List.getElem?_cons_succ]
              exact ih (some w) j v h
          | none =>
              simp only [interpGo]
              rw [List.getElem?_cons_succ]
              exact ih _ j v h

/-- Row of the cleaned table returned by `clean_gdp_data`, with exactly
the four retained columns in output order: country, year, gdp_billion,
gdp_unit (the raw gdp_usd column is dropped). -/
structure CleanRow where
  country : String
  year : Int
  gdp_billion : Option ℚ
  gdp_unit : String
deriving DecidableEq

/-- Column header of the cleaned CSV, in output order. -/
def cleanHeader : List String := ["country", "year", "gdp_billion", "gdp_unit"]

/-- Round half to even at integer precision, as numpy rounding does. -/
def roundHalfEven (q : ℚ) : Int :=
  if q - ⌊q⌋ < 1 / 2 then ⌊q⌋
  else if q - ⌊q⌋ > 1 / 2 then ⌊q⌋ + 1
  else if ⌊q⌋ % 2 = 0 then ⌊q⌋ else ⌊q⌋ + 1

/-- Round to 2 decimal places (`Series.round(2)`). -/
def round2 (q : ℚ) : ℚ := (roundHalfEven (q * 100) : ℚ) / 100

/-- Sort key of a long row. -/
def LongRow.key (r : LongRow) : RowKey := (r.country, r.year)

/-- Sort key of a cleaned row. -/
def CleanRow.key (r : CleanRow) : RowKey := (r.country, r.year)

/-- Replace the value column of one row (series element assignment). -/
def setVal (r : LongRow) (v : Option ℚ) : LongRow := { r with gdp_usd := v }

/-- The frame sorted by (country, year) while keeping each row's
positional index: `out.sort_values(["country", "year"])` applied to a
frame whose rows carry their index. -/
def sortIdx (df : List LongRow) : List (Nat × LongRow) :=
  sortByKey (fun p => p.2.key) df.enum

/-- The fill step's result as an index-aligned series: the sorted frame
is grouped by country (`groupby("country", group_keys=False)`), the
series transform `f` is applied to each group's value series, and each
resulting value keeps the index of its row. -/
def groupedFill (f : List (Option ℚ) → List (Option ℚ))
    (s : List (Nat × LongRow)) : List (Nat × Option ℚ) :=
  ((chunkBy (fun p => p.2.country) s).map
    (fun g => (g.map Prod.fst).zip (f (g.map (fun p => p.2.gdp_usd))))).flatten

/-- Assignment `out["gdp_usd"] = series`: each row receives the series
value carried by its index (a row whose index the series missed would
become NaN, i.e. `none`). -/
def assignColumn (df : List LongRow) (upd : List (Nat × Option ℚ)) : List LongRow :=
  df.enum.map (fun p => setVal p.2 ((upd.lookup p.1).join))

/-- Conversion of a filled long row into a cleaned row: the value is
divided by one billion and rounded to 2 decimal places, the unit column
is the constant string "billion USD", and only the four final columns
are kept. -/
def rescaleRow (r : LongRow) : CleanRow :=
  ⟨r.country, r.year, r.gdp_usd.map (fun v => round2 (v / 1000000000)), "billion USD"⟩

/-- Shallow embedding of `clean_gdp_data` (src/fed/data.py).
`fill_method` is `none` for Python `None` and `some m` for the string
`m`.  For "ffill"/"bfill" and for "interpolate" the value column is
replaced by the per-country filled series, computed on the sorted frame
and written back by index alignment; any other method fills nothing.
Then the value is rescaled and rounded, the unit label attached, the
four clean columns kept and the frame sorted by (country, year). -/
def clean_gdp_data (df : List LongRow) (fill_method : Option String) : List CleanRow :=
  let out := df
  let out2 :=
    if fill_method = some "ffill" ∨ fill_method = some "bfill" then
      assignColumn out (groupedFill
        (fun sr => if fill_method = some "ffill" then ffillS sr else bfillS sr)
        (sortIdx out))
    else if fill_method = some "interpolate" then
      assignColumn out (groupedFill interpolateS (sortIdx out))
    else out
  sortByKey CleanRow.key (out2.map rescaleRow)

/-- Mutation-explicit version of `clean_gdp_data` that also returns the
final state of the caller's argument object.  The body starts with
`out = df.copy()`, a deep copy, so every later column assignment hits
`out` only and the argument comes back unchanged. -/
def clean_gdp_data_tracked (df : List LongRow) (fill_method : Option String) :
    List CleanRow × List LongRow :=
  let dfArg := df
  let out := dfArg
  let out2 :=
    if fill_method = some "ffill" ∨ fill_method = some "bfill" then
      assignColumn out (groupedFill
        (fun sr => if fill_method = some "ffill" then ffillS sr else bfillS sr)
        (sortIdx out))
    else if fill_method = some "interpolate" then
      assignColumn out (groupedFill interpolateS (sortIdx out))
    else out
  (sortByKey CleanRow.key (out2.map rescaleRow), dfArg)

/-- The fill transform selected by `fill_method`: "ffill", "bfill",
"interpolate", and anything else fills nothing. -/
def fillFun (m : Option String) : List (Option ℚ) → List (Option ℚ) :=
  if m = some "ffill" then ffillS
  else if m = some "bfill" then bfillS
  else if m = some "interpolate" then interpolateS
  else id

/-- Per-country application of a series transform on a sorted frame. -/
def applyFill (f : List (Option ℚ) → List (Option ℚ)) (l : List LongRow) :
    List LongRow :=
  ((chunkBy (fun r => r.country) l).map
    (fun g => List.zipWith setVal g (f (g.map (fun r => r.gdp_usd))))).flatten

/-- Normal form of the cleaner: sort by (country, year), fill the value
series within each country group, then rescale and relabel each row. -/
def cleanNF (df : List LongRow) (m : Option String) : List CleanRow :=
  (applyFill (fillFun m) (sortByKey LongRow.key df)).map rescaleRow

lemma setVal_self (r : LongRow) : setVal r r.gdp_usd = r := rfl

lemma zipWith_setVal_self (g : List LongRow) :
    List.zipWith setVal g (g.map (fun r => r.gdp_usd)) = g := by
  induction g with
  | nil => rfl
  | cons r t ih => simp only [List.map_cons, List.zipWith_cons_cons, setVal_self, ih]

lemma applyFill_id (l : List LongRow) : applyFill id l = l := by
  rw [applyFill]
  simp only [id, zipWith_setVal_self]
  show (List.map id (chunkBy (fun r => r.country) l)).flatten = l
  rw [List.map_id, chunkBy_flatten]

lemma lookup_eq_some_of_mem {β : Type} (ps : List (Nat × β)) (i : Nat) (v : β)
    (hnd : (ps.map Prod.fst).Nodup) (hmem : (i, v) ∈ ps) : ps.lookup i = some v := by
  induction ps with
  | nil => simp at hmem
  | cons q ps ih =>
      obtain ⟨j, w⟩ := q
      rw [List.map_cons, List.nodup_cons] at hnd
      obtain ⟨hj, hnd2⟩ := hnd
      rcases List.mem_cons.mp hmem with heq | hmem2
      · rw [Prod.mk.injEq] at heq
        obtain ⟨rfl, rfl⟩ := heq
        simp [List.lookup_cons]
      · have hij : i ≠ j := by
          intro h
          have hin : i ∈ ps.map Prod.fst := List.mem_map_of_mem Prod.fst hmem2
          rw [h] at hin
          exact hj hin
        simp only [List.lookup_cons, beq_eq_false_iff_ne.mpr hij]
        exact ih hnd2 hmem2

lemma groupedFill_map_fst (f : List (Option ℚ) → List (Option ℚ))
    (hf : ∀ sr, (f sr).length = sr.length) (s : List (Nat × LongRow)) :
    (groupedFill f s).map Prod.fst = s.map Prod.fst := by
  rw [groupedFill, List.map_flatten, List.map_map]
  have hco : ∀ g ∈ chunkBy (fun p : Nat × LongRow => p.2.country) s,
      (List.map Prod.fst ∘ fun g =>
          (g.map Prod.fst).zip (f (g.map (fun p => p.2.gdp_usd)))) g
        = List.map Prod.fst g := by
    intro g hg
    simp only [Function.comp]
    apply List.map_fst_zip
    rw [hf, List.length_map, List.length_map]
  rw [List.map_congr_left hco, ← List.map_flatten, chunkBy_flatten]

lemma chunk_pointwise (f : List (Option ℚ) → List (Option ℚ))
    (hf : ∀ sr, (f sr).length = sr.length) (s : List (Nat × LongRow))
    (hnd : (s.map Prod.fst).Nodup) (g : List (Nat × LongRow))
    (hg : g ∈ chunkBy (fun p => p.2.country) s) :
    g.map (fun p => setVal p.2 (((groupedFill f s).lookup p.1).join))
      = List.zipWith setVal (g.map Prod.snd) (f (g.map (fun p => p.2.gdp_usd))) := by
  apply List.ext_getElem
  · rw [List.length_map, List.length_zipWith, List.length_map, hf, List.length_map,
      Nat.min_self]
  · intro j h1 h2
    rw [List.length_map] at h1
    have hjf : j < (f (g.map (fun p => p.2.gdp_usd))).length := by
      rw [hf, List.length_map]
      exact h1
    have hjm : j < (g.map Prod.fst).length := by
      rw [List.length_map]
      exact h1
    have hjz : j < ((g.map Prod.fst).zip (f (g.map (fun p => p.2.gdp_usd)))).length := by
      rw [List.length_zip, List.length_map, hf, List.length_map, Nat.min_self]
      exact h1
    have hmem : (g[j].1, (f (g.map (fun p => p.2.gdp_usd)))[j]) ∈ groupedFill f s := by
      rw [groupedFill, List.mem_flatten]
      refine ⟨(g.map Prod.fst).zip (f (g.map (fun p => p.2.gdp_usd))),
        List.mem_map_of_mem _ hg, ?_⟩
      have hz : ((g.map Prod.fst).zip (f (g.map (fun p => p.2.gdp_usd))))[j]
          = ((g.map Prod.fst)[j], (f (g.map (fun p => p.2.gdp_usd)))[j]) :=
        List.getElem_zip
      have hfst : (g.map Prod.fst)[j] = g[j].1 := by
        rw [List.getElem_map]
      rw [hfst] at hz
      rw [← hz]
      exact List.getElem_mem hjz
    have hlookup := lookup_eq_some_of_mem (groupedFill f s) _ _
      (by rw [groupedFill_map_fst f hf s]; exact hnd) hmem
    rw [List.getElem_map, List.getElem_zipWith, List.getElem_map, hlookup]
    rfl

lemma map_eq_flatten_chunks {α β : Type} (key : α → String) (h : α → β) (l : List α) :
    l.map h = ((chunkBy key l).map (List.map h)).flatten := by
  rw [← List.map_flatten, chunkBy_flatten]

lemma map_assign_eq_applyFill (f : List (Option ℚ) → List (Option ℚ))
    (hf : ∀ sr, (f sr).length = sr.length) (s : List (Nat × LongRow))
    (hnd : (s.map Prod.fst).Nodup) :
    s.map (fun p => setVal p.2 (((groupedFill f s).lookup p.1).join))
      = applyFill f (s.map Prod.snd) := by
  rw [applyFill, chunkBy_map (fun p : Nat × LongRow => p.2.country) (fun r => r.country)
    Prod.snd (fun p => rfl) s, List.map_map,
    map_eq_flatten_chunks (fun p : Nat × LongRow => p.2.country)
      (fun p => setVal p.2 (((groupedFill f s).lookup p.1).join)) s]
  congr 1
  apply List.map_congr_left
  intro g hg
  rw [chunk_pointwise f hf s hnd g hg]
  show _ = List.zipWith setVal (g.map Prod.snd)
      (f ((g.map Prod.snd).map (fun r => r.gdp_usd)))
  rw [List.map_map]
  rfl

lemma sortIdx_fst_nodup (df : List LongRow) : ((sortIdx df).map Prod.fst).Nodup := by
  have hperm : (sortIdx df).Perm df.enum := sortByKey_perm _ _
  have h2 : (df.enum.map Prod.fst).Nodup := by
    rw [List.enum_map_fst]
    exact List.nodup_range _
  exact ((hperm.map Prod.fst).symm).nodup h2

lemma sortLong_eq_sortIdx (df : List LongRow) :
    sortByKey LongRow.key df = (sortIdx df).map Prod.snd := by
  conv_lhs => rw [← List.enum_map_snd df]
  rw [sortIdx]
  exact sortByKey_map (fun p => p.2.key) LongRow.key Prod.snd (fun p => rfl) df.enum

lemma assign_sort_eq (df : List LongRow) (f : List (Option ℚ) → List (Option ℚ))
    (hf : ∀ sr, (f sr).length = sr.length) :
    sortByKey CleanRow.key
        ((assignColumn df (groupedFill f (sortIdx df))).map rescaleRow)
      = (applyFill f (sortByKey LongRow.key df)).map rescaleRow := by
  rw [assignColumn, List.map_map,
    sortByKey_map (fun p : Nat × LongRow => p.2.key) CleanRow.key
      (rescaleRow ∘ fun p => setVal p.2 (((groupedFill f (sortIdx df)).lookup p.1).join))
      (fun p => rfl) df.enum]
  show (sortIdx df).map
      (rescaleRow ∘ fun p => setVal p.2 (((groupedFill f (sortIdx df)).lookup p.1).join))
    = _
  rw [← List.map_map, sortLong_eq_sortIdx,
    map_assign_eq_applyFill f hf (sortIdx df) (sortIdx_fst_nodup df)]

lemma clean_eq_cleanNF (df : List LongRow) (m : Option String) :
    clean_gdp_data df m = cleanNF df m := by
  by_cases h1 : m = some "ffill"
  · subst h1
    simp only [clean_gdp_data, cleanNF, fillFun]
    simp only [reduceIte, or_false, if_pos]
    exact assign_sort_eq df ffillS ffillS_length
  · by_cases h2 : m = some "bfill"
    · subst h2
      simp only [clean_gdp_data, cleanNF, fillFun]
      simp only [reduceIte, false_or, if_pos]
      exact assign_sort_eq df bfillS bfillS_length
    · by_cases h3 : m = some "interpolate"
      · subst h3
        have hc1 : ¬(some "interpolate" = some "ffill"
            ∨ some "interpolate" = some "bfill") := by
          simp
        simp only [clean_gdp_data, cleanNF, fillFun]
        simp only [reduceIte, if_neg hc1]
        exact assign_sort_eq df interpolateS interpolateS_length
      · have hc1 : ¬(m = some "ffill" ∨ m = some "bfill") := by tauto
        simp only [clean_gdp_data, cleanNF, fillFun, if_neg hc1, if_neg h1, if_neg h2,
          if_neg h3]
        rw [applyFill_id]
        exact sortByKey_map LongRow.key CleanRow.key rescaleRow (fun r => rfl) df

lemma charsLt_irrefl : ∀ (a : List Char), charsLt a a = false
  | [] => rfl
  | c :: cs => by simp [charsLt, charsLt_irrefl cs]

lemma strLt_irrefl (a : String) : strLt a a = false := charsLt_irrefl a.data

lemma keyLt_asymm {x y : RowKey} (h : keyLt x y = true) : ¬ keyLt y x = true := by
  intro h2
  simp only [keyLt, Bool.or_eq_true, Bool.and_eq_true, decide_eq_true_eq] at h h2
  rcases h with h | ⟨he, hi⟩
  · rcases h2 with h2 | ⟨he2, hi2⟩
    · have hd := strLt_trans h h2
      rw [strLt_irrefl] at hd
      simp at hd
    · rw [he2] at h
      rw [strLt_irrefl] at h
      simp at h
  · rcases h2 with h2 | ⟨he2, hi2⟩
    · rw [← he] at h2
      rw [strLt_irrefl] at h2
      simp at h2
    · omega

lemma sortByKey_of_strictSorted {α : Type} (key : α → RowKey) (l : List α)
    (h : l.Pairwise (fun a b => keyLt (key a) (key b) = true)) :
    sortByKey key l = l := by
  induction l with
  | nil => rfl
  | cons x xs ih =>
      rw [List.pairwise_cons] at h
      obtain ⟨hx, hxs⟩ := h
      rw [sortByKey, ih hxs]
      cases xs with
      | nil => rfl
      | cons y ys =>
          rw [insertByKey, if_neg (keyLt_asymm (hx y (List.mem_cons_self y ys)))]

/-- Example input of the spec's end-to-end scenario: entities A and B
over 2000–2002, with values A = [1e9, missing, 3e9] and
B = [2e9, 2e9, 2e9]. -/
def exTable : List LongRow :=
  [⟨"A", 2000, some 1000000000⟩, ⟨"A", 2001, none⟩, ⟨"A", 2002, some 3000000000⟩,
   ⟨"B", 2000, some 2000000000⟩, ⟨"B", 2001, some 2000000000⟩,
   ⟨"B", 2002, some 2000000000⟩]

/-- Expected cleaned output of the end-to-end scenario: A becomes
[1.0, 2.0, 3.0] billion, B stays [2.0, 2.0, 2.0] billion, unit label
"billion USD" on every row. -/
def exCleanOut : List CleanRow :=
  [⟨"A", 2000, some 1, "billion USD"⟩, ⟨"A", 2001, some 2, "billion USD"⟩,
   ⟨"A", 2002, some 3, "billion USD"⟩, ⟨"B", 2000, some 2, "billion USD"⟩,
   ⟨"B", 2001, some 2, "billion USD"⟩, ⟨"B", 2002, some 2, "billion USD"⟩]

/-- C6: cleaning with fill strategy "none" fills nothing: the output is
just the rescaled, relabeled, (country, year)-sorted input, its scaled
value is missing exactly at the (entity, year) positions where the
input value was missing, and those positions are a permutation of the
input's. -/
theorem C6_none_passthrough (df : List LongRow) :
    clean_gdp_data df (some "none") = (sortByKey LongRow.key df).map rescaleRow
    ∧ (clean_gdp_data df (some "none")).map
        (fun r => (r.country, r.year, r.gdp_billion.isSome))
      = (sortByKey LongRow.key df).map
        (fun r => (r.country, r.year, r.gdp_usd.isSome))
    ∧ ((clean_gdp_data df (some "none")).map
        (fun r => (r.country, r.year, r.gdp_billion.isSome))).Perm
        (df.map (fun r => (r.country, r.year, r.gdp_usd.isSome))) := by
  have hid : fillFun (some "none") = id := by
    rw [fillFun, if_neg (by decide), if_neg (by decide), if_neg (by decide)]
  have h1 : clean_gdp_data df (some "none") = (sortByKey LongRow.key df).map rescaleRow := by
    rw [clean_eq_cleanNF, cleanNF, hid, applyFill_id]
  refine ⟨h1, ?_, ?_⟩
  · rw [h1, List.map_map]
    apply List.map_congr_left
    intro r _
    cases hr : r.gdp_usd <;> simp [rescaleRow, Function.comp, hr]
  · rw [h1, List.map_map]
    have hperm := (sortByKey_perm LongRow.key df).map
      (fun r => (r.country, r.year, r.gdp_usd.isSome))
    refine List.Perm.trans ?_ hperm
    apply List.Perm.of_eq
    apply List.map_congr_left
    intro r _
    cases hr : r.gdp_usd <;> simp [rescaleRow, Function.comp, hr]

/-- C8: for every table and fill strategy the cleaned table is sorted
by entity then year (ascending, lexicographically), and its columns are
exactly country, year, gdp_billion, gdp_unit in that order (the raw
value column is dropped, as the `CleanRow` shape records). -/
theorem C8_columns_and_order (df : List LongRow) (m : Option String) :
    (clean_gdp_data df m).Pairwise
        (fun u v => keyLe (u.country, u.year) (v.country, v.year) = true)
    ∧ cleanHeader = ["country", "year", "gdp_billion", "gdp_unit"] := by
  constructor
  · simp only [clean_gdp_data]
    exact sortByKey_pairwise CleanRow.key _
  · rfl

/-- C9: `clean_gdp_data` returns a new table and leaves its argument
unchanged: the body copies the input (`out = df.copy()`) and mutates
only the copy, so the tracked final state of the argument equals the
input, while the result is the usual cleaned table. -/
theorem C9_input_unchanged (df : List LongRow) (m : Option String) :
    (clean_gdp_data_tracked df m).2 = df
    ∧ (clean_gdp_data_tracked df m).1 = clean_gdp_data df m :=
  ⟨rfl, rfl⟩

/-- C10: a fill_method that is none of "ffill", "bfill", "interpolate"
(e.g. "forward-fill", "backward-fill", "none", or Python None) does not
raise: the cleaner performs no filling and returns exactly the output
of fill strategy "none". -/
theorem C10_unknown_method_no_fill (df : List LongRow) (m : Option String)
    (h1 : m ≠ some "ffill") (h2 : m ≠ some "bfill") (h3 : m ≠ some "interpolate") :
    clean_gdp_data df m = clean_gdp_data df (some "none") := by
  have hc : ¬(m = some "ffill" ∨ m = some "bfill") := by tauto
  have hn1 : ¬((some "none" : Option String) = some "ffill"
      ∨ (some "none" : Option String) = some "bfill") := by decide
  have hn2 : (some "none" : Option String) ≠ some "interpolate" := by decide
  simp only [clean_gdp_data, if_neg hc, if_neg h3, if_neg hn1, if_neg hn2]

/-- C10, witness: the unknown method string "forward-fill" behaves
exactly like "none" on the example table. -/
theorem C10_unknown_method_no_fill_witness :
    clean_gdp_data exTable (some "forward-fill")
      = clean_gdp_data exTable (some "none") :=
  C10_unknown_method_no_fill exTable (some "forward-fill")
    (by decide) (by decide) (by decide)

/-- C3: forward fill replaces each value with the nearest prior known
value of the year-ordered series prefix up to it (so a missing value
gets the nearest prior known value, and leading gaps with no anchor
stay missing), backward fill symmetrically uses the nearest following
known value (trailing gaps stay missing); cleaning with "ffill" /
"bfill" applies exactly these transforms to each entity's sorted series;
and forward fill on `[missing, 5, missing]` yields `[missing, 5, 5]`. -/
theorem C3_directional_fill :
    (∀ (l : List (Option ℚ)) (i : Nat), i < l.length →
        (ffillS l)[i]? = some (lastKnown (l.take (i + 1))))
    ∧ (∀ (l : List (Option ℚ)) (i : Nat), i < l.length →
        (bfillS l)[i]? = some (firstKnown (l.drop i)))
    ∧ (∀ df : List LongRow, clean_gdp_data df (some "ffill")
        = (applyFill ffillS (sortByKey LongRow.key df)).map rescaleRow)
    ∧ (∀ df : List LongRow, clean_gdp_data df (some "bfill")
        = (applyFill bfillS (sortByKey LongRow.key df)).map rescaleRow)
    ∧ ffillS [none, some 5, none] = [none, some 5, some 5] := by
  refine ⟨ffillS_getElem, bfillS_getElem, ?_, ?_, rfl⟩
  · intro df
    rw [clean_eq_cleanNF, cleanNF, fillFun, if_pos rfl]
  · intro df
    rw [clean_eq_cleanNF, cleanNF, fillFun, if_neg (by decide), if_pos rfl]

/-- C3, witness: position 2 of the forward-filled series
`[missing, 5, missing]` carries the propagated value 5. -/
theorem C3_directional_fill_witness :
    (ffillS [none, some 5, none])[2]? = some (some (5 : ℚ)) := by
  have h := C3_directional_fill.1 [none, some 5, none] 2 (by decide)
  rw [h]
  rfl

/-- C4: the interpolate strategy linearly interpolates interior gaps
(a maximal run of `k` missing cells between known values `a` and `b`
receives the equally spaced values `a + (b - a) * (p + 1) / (k + 1)`),
extends the nearest known value across leading and trailing boundary
gaps, preserves known values, leaves no value missing unless the whole
series is missing; cleaning with "interpolate" applies exactly this
transform to each entity's sorted series; and `[10, missing, 30]`
becomes `[10, 20, 30]`. -/
theorem C4_interpolate :
    (∀ (u : List (Option ℚ)) (a : ℚ) (k : Nat) (b : ℚ) (t : List (Option ℚ))
        (p : Nat), p < k →
        (interpolateS (u ++ some a :: (List.replicate k none ++ some b :: t)))[
            u.length + 1 + p]?
          = some (some (a + (b - a) * ((p : ℚ) + 1) / ((k : ℚ) + 1))))
    ∧ (∀ (k : Nat) (b : ℚ) (t : List (Option ℚ)) (p : Nat), p < k →
        (interpolateS (List.replicate k none ++ some b :: t))[p]? = some (some b))
    ∧ (∀ (u : List (Option ℚ)) (a : ℚ) (k : Nat) (p : Nat), p < k →
        (interpolateS (u ++ some a :: List.replicate k none))[u.length + 1 + p]?
          = some (some a))
    ∧ (∀ (l : List (Option ℚ)) (i : Nat) (v : ℚ), l[i]? = some (some v) →
        (interpolateS l)[i]? = some (some v))
    ∧ (∀ l : List (Option ℚ), (∃ x ∈ l, x ≠ none) →
        ∀ y ∈ interpolateS l, y ≠ none)
    ∧ (∀ df : List LongRow, clean_gdp_data df (some "interpolate")
        = (applyFill interpolateS (sortByKey LongRow.key df)).map rescaleRow)
    ∧ interpolateS [some 10, none, some 30] = [some 10, some 20, some 30] := by
  refine ⟨?_, ?_, ?_, ?_, ?_, ?_, ?_⟩
  · intro u a k b t p hp
    have hidx : (interpolateS
          (u ++ some a :: (List.replicate k none ++ some b :: t)))[u.length + 1 + p]?
        = ((interpolateS
          (u ++ some a :: (List.replicate k none ++ some b :: t))).drop
            (u.length + 1))[p]? := by
      rw [List.getElem?_drop]
    rw [hidx, interpolateS, interpGo_drop, interpGo_gap k a b t p hp]
  · intro k b t p hp
    exact interpGo_lead k b t p hp
  · intro u a k p hp
    have hidx : (interpolateS (u ++ some a :: List.replicate k none))[u.length + 1 + p]?
        = ((interpolateS (u ++ some a :: List.replicate k none)).drop
            (u.length + 1))[p]? := by
      rw [List.getElem?_drop]
    rw [hidx, interpolateS, interpGo_drop, interpGo_trailing]
    simp [List.getElem?_replicate, hp]
  · intro l i v h
    exact interpGo_getElem_some l none i v h
  · intro l h y hy
    exact interpGo_ne_none l none (Or.inr h) y hy
  · intro df
    rw [clean_eq_cleanNF, cleanNF, fillFun, if_neg (by decide), if_neg (by decide),
      if_pos rfl]
  · simp only [interpolateS, interpGo, interpCur, nextKnown]
    norm_num

/-- C4, witness: the middle cell of `[10, missing, 30]` interpolates to
`10 + (30 - 10) * 1 / 2 = 20`. -/
theorem C4_interpolate_witness :
    (interpolateS [some 10, none, some 30])[1]?
      = some (some ((10 : ℚ) + (30 - 10) * (0 + 1) / (1 + 1))) := by
  have h := C4_interpolate.1 [] 10 1 30 [] 0 (by decide)
  simp only [List.length_nil, List.nil_append, List.replicate_one, Nat.cast_zero,
    Nat.cast_one] at h
  exact h

/-- C7: for every table and fill strategy the cleaner computes each
output scaled value as the (possibly filled) input value divided by one
billion and rounded to 2 decimal places, and sets the unit column to
the constant "billion USD" on every row; on the example table (A =
[1e9, missing, 3e9], B = [2e9, 2e9, 2e9] over 2000–2002), interpolate
cleaning yields A = [1.0, 2.0, 3.0] and B = [2.0, 2.0, 2.0] billion. -/
theorem C7_rescale_and_unit :
    (∀ (df : List LongRow) (m : Option String),
        clean_gdp_data df m
          = (applyFill (fillFun m) (sortByKey LongRow.key df)).map
              (fun r => (⟨r.country, r.year,
                r.gdp_usd.map (fun v => round2 (v / 1000000000)),
                "billion USD"⟩ : CleanRow)))
    ∧ (∀ (df : List LongRow) (m : Option String) (r : CleanRow),
        r ∈ clean_gdp_data df m → r.gdp_unit = "billion USD")
    ∧ clean_gdp_data exTable (some "interpolate") = exCleanOut := by
  refine ⟨?_, ?_, ?_⟩
  · intro df m
    exact clean_eq_cleanNF df m
  · intro df m r hr
    rw [clean_eq_cleanNF, cleanNF, List.mem_map] at hr
    obtain ⟨r2, _, rfl⟩ := hr
    rfl
  · rw [clean_eq_cleanNF, cleanNF]
    have hfill : fillFun (some "interpolate") = interpolateS := by
      rw [fillFun, if_neg (by decide), if_neg (by decide), if_pos rfl]
    rw [hfill, sortByKey_of_strictSorted LongRow.key exTable (by decide)]
    rw [applyFill]
    have hch : chunkBy (fun r : LongRow => r.country) exTable
        = [[⟨"A", 2000, some 1000000000⟩, ⟨"A", 2001, none⟩,
            ⟨"A", 2002, some 3000000000⟩],
           [⟨"B", 2000, some 2000000000⟩, ⟨"B", 2001, some 2000000000⟩,
            ⟨"B", 2002, some 2000000000⟩]] := by rfl
    rw [hch]
    have hA : interpolateS [some (1000000000 : ℚ), none, some 3000000000]
        = [some 1000000000, some 2000000000, some 3000000000] := by
      simp only [interpolateS, interpGo, interpCur, nextKnown]
      norm_num
    have hB : interpolateS [some (2000000000 : ℚ), some 2000000000, some 2000000000]
        = [some 2000000000, some 2000000000, some 2000000000] := rfl
    simp only [List.map_cons, List.map_nil]
    rw [hA, hB]
    simp only [List.zipWith_cons_cons, List.zipWith_nil_right, List.flatten_cons,
      List.flatten_nil, List.append_nil, List.cons_append, List.nil_append,
      List.map_cons, List.map_nil]
    norm_num [setVal, rescaleRow, round2, roundHalfEven, exCleanOut]

/-- C7, witness: the first row of the cleaned example table is a member
of the cleaner's output and carries the unit label "billion USD". -/
theorem C7_rescale_and_unit_witness :
    (⟨"A", 2000, some 1, "billion USD"⟩ : CleanRow).gdp_unit = "billion USD" := by
  refine C7_rescale_and_unit.2.1 exTable (some "interpolate") _ ?_
  rw [C7_rescale_and_unit.2.2]
  simp [exCleanOut]
